import Mathlib

set_option maxHeartbeats 1000000
set_option maxRecDepth 20000

/-!
Verification of the post-persistence logic of the blog-management backend:
the slug generator and uniqueness resolver, the publication state machine
and the reading-time calculator embedded in the Post schema's save hook
(`backend/models/Post.js`, shown at the end of `backend/routes/posts.js`),
and the post routes (`backend/routes/posts.js`).

Modelling notes, faithful to the Mongoose/Express semantics of the source:
* `Post.create` runs schema validation, then the user `pre('save')` hook,
  then the insert; the insert is subject to the unique index that
  `slug: { unique: true }` declares, and to the primary `_id` index.
* `Post.findByIdAndUpdate(id, body, { new, runValidators })` applies the
  body's fields directly and does NOT run `pre('save')` document
  middleware (it would only trigger `findOneAndUpdate` query middleware,
  of which the schema registers none).  The unique index still applies.
* JavaScript strings are modelled as Lean `String`; `toLowerCase` as the
  ASCII `Char.toLower` (non-ASCII letters are stripped by the following
  `[^a-zA-Z0-9\s]` filter in either reading); `split(/\s+/)` with its
  boundary behaviour (leading/trailing separators yield empty tokens, and
  `"".split` yields `[""]`); ObjectIds as the strings matched by the
  routes' `/^[0-9a-fA-F]{24}$/` test.
* Time is an abstract `Nat` passed to each operation as `now`.
-/

namespace Blog

/-- The characters of the JavaScript `\s` class that can occur in the
ASCII range: space, tab, line feed, carriage return, vertical tab and
form feed. -/
def jsIsWs (c : Char) : Bool :=
  c == ' ' || c == '\t' || c == '\n' || c == '\r' || c == '\x0b' || c == '\x0c'

/-- The characters kept by `.replace(/[^a-zA-Z0-9\s]/g, '')`:
ASCII alphanumerics and whitespace. -/
def keepChar (c : Char) : Bool :=
  c.isAlphanum || jsIsWs c

/-- `.replace(/\s+/g, '-')`: every maximal run of whitespace becomes a
single hyphen.  The flag records whether the previous character was
whitespace (i.e. whether we are inside a run). -/
def collapseWs : List Char → Bool → List Char
  | [], _ => []
  | c :: cs, lastWs =>
    if jsIsWs c then
      if lastWs then collapseWs cs true
      else '-' :: collapseWs cs true
    else c :: collapseWs cs false

/-- The base slug computed from a title in the `pre('save')` hook:
`title.toLowerCase().replace(/[^a-zA-Z0-9\s]/g, '').replace(/\s+/g, '-')
.substring(0, 50)`. -/
def slugBase (title : String) : String :=
  ((collapseWs ((title.data.map Char.toLower).filter keepChar) false).take 50).asString

/-- Decimal digit to its character, `48 + d` being the code of `'0' + d`. -/
def digitChar (d : Nat) : Char :=
  Char.ofNat (48 + d)

/-- Decimal numeral of `n`, most significant digit first; `fuel` bounds the
recursion depth and `n + 1` always suffices. -/
def natStrAux : Nat → Nat → List Char
  | 0, _ => []
  | fuel + 1, n =>
    if n < 10 then [digitChar n]
    else natStrAux fuel (n / 10) ++ [digitChar (n % 10)]

/-- The decimal string of `n`, as JavaScript renders a number inside a
template literal. -/
def natStr (n : Nat) : String :=
  (natStrAux (n + 1) n).asString

/-- The `k`-th slug the uniqueness loop tries: the base slug itself, then
`` `${baseSlug}-${counter}` `` for counter 1, 2, 3, … -/
def slugCandidate (base : String) : Nat → String
  | 0 => base
  | k + 1 => base ++ "-" ++ natStr (k + 1)

/-- The `while (true)` uniqueness loop of the hook: starting at candidate
`k`, return the first candidate that no other post holds.  `taken` is the
set of slugs of the posts the `findOne({ slug })` query can see, own post
excluded (the loop accepts a match whose `_id` equals its own).  `fuel`
bounds the iterations; `taken.length + 1` always suffices (proved below). -/
def resolveSlugAux (taken : List String) (base : String) : Nat → Nat → String
  | 0, k => slugCandidate base k
  | fuel + 1, k =>
    if slugCandidate base k ∈ taken then resolveSlugAux taken base fuel (k + 1)
    else slugCandidate base k

/-- The slug the hook assigns: the first free candidate. -/
def resolveSlug (taken : List String) (base : String) : String :=
  resolveSlugAux taken base (taken.length + 1) 0

/-- `content.split(/\s+/)` on the character list: tokens between maximal
whitespace runs, including the empty tokens JavaScript produces at a
leading or trailing separator (and `[""]` for the empty string). -/
def splitWsAux : List Char → List Char → Bool → List (List Char)
  | [], acc, _ => [acc.reverse]
  | c :: cs, acc, lastWs =>
    if jsIsWs c then
      if lastWs then splitWsAux cs [] true
      else acc.reverse :: splitWsAux cs [] true
    else splitWsAux cs (c :: acc) false

/-- `content.split(/\s+/)` as a list of strings. -/
def jsSplitWs (s : String) : List String :=
  (splitWsAux s.data [] false).map List.asString

/-- The hook's reading time: `Math.ceil(content.split(/\s+/).length / 200)`.
No tag stripping and no filtering of empty tokens happens here (unlike the
front-end utility `calculateReadingTime`). -/
def computeReadingTime (content : String) : Nat :=
  ((jsSplitWs content).length + 199) / 200

/-- Publication states of a post (`status` enum). -/
inductive Status where
  | draft
  | published
  | archived
deriving DecidableEq

/-- Roles that can reach the post routes (`authorize('author', 'admin')`). -/
inductive Role where
  | admin
  | author
deriving DecidableEq

/-- One element of the `likes` array: `{ user: ObjectId }` (the `createdAt`
default is irrelevant to the logic and not modelled). -/
structure LikeEntry where
  user : String
deriving DecidableEq

/-- A stored Post document, restricted to the fields the verified logic
reads or writes. -/
structure Post where
  id : String
  title : String
  slug : String
  content : String
  status : Status
  publishedAt : Option Nat
  readingTime : Nat
  author : String
  likes : List LikeEntry
deriving DecidableEq

/-- The authenticated caller (`req.user`). -/
structure Caller where
  id : String
  role : Role
deriving DecidableEq

/-- The routes' ObjectId test `/^[0-9a-fA-F]{24}$/`. -/
def isValidObjectId (s : String) : Bool :=
  s.length == 24 &&
    s.data.all (fun c => c.isDigit || ('a' ≤ c && c ≤ 'f') || ('A' ≤ c && c ≤ 'F'))

/-- The request body of `POST /api/posts`, restricted to the modelled
fields.  `validatePostCreation` does not strip unknown fields, so a `slug`
in the body reaches `Post.create` and suppresses generation (the hook only
generates when no slug exists). -/
structure CreateBody where
  title : String
  content : String
  status : Option Status := none
  slug : Option String := none
deriving DecidableEq

/-- The request body of `PUT /api/posts/:id`: every present field is
applied by `findByIdAndUpdate` as a `$set`.  `validatePostUpdate` checks
formats of the listed fields but neither strips nor forbids `author` or
`slug`. -/
structure UpdateBody where
  title : Option String := none
  content : Option String := none
  status : Option Status := none
  author : Option String := none
  slug : Option String := none
deriving DecidableEq

/-- Errors the storage layer can raise on a write. -/
inductive DbError where
  | validationErr
  | duplicateKey
deriving DecidableEq

/-- The HTTP outcomes of the modelled routes. -/
inductive HttpStatus where
  | ok
  | created
  | badRequest
  | forbidden
  | notFound
  | serverError
deriving DecidableEq

/-- The new document `Post.create` builds from the body, before hooks:
`author` comes from `req.user._id`, `status` defaults to `draft`,
`publishedAt` is unset, `readingTime` defaults to 0. -/
def createDoc (body : CreateBody) (authorId newId : String) : Post :=
  { id := newId
    title := body.title
    slug := body.slug.getD ""
    content := body.content
    status := body.status.getD Status.draft
    publishedAt := none
    readingTime := 0
    author := authorId
    likes := [] }

/-- Schema validation on save: `title` required with max length 200,
`content` required. -/
def validatePost (p : Post) : Bool :=
  p.title != "" && decide (p.title.length ≤ 200) && p.content != ""

/-- The `pre('save')` hook on a NEW document.  On a new document every
body-supplied path is modified, so: the slug is generated whenever none was
supplied (JS falsy check `!this.slug`, true for both absent and empty);
`publishedAt` is set iff `status` was explicitly supplied (a default does
not mark the path modified), is `published`, and `publishedAt` is unset;
`readingTime` is always recomputed (content is always newly set).
`store` is what `this.constructor.findOne` queries. -/
def preSaveHookNew (store : List Post) (p : Post) (statusSet : Bool) (now : Nat) : Post :=
  let taken := (store.filter (fun q => q.id != p.id)).map Post.slug
  let p1 :=
    if p.slug = "" then { p with slug := resolveSlug taken (slugBase p.title) }
    else p
  let p2 :=
    if statusSet ∧ p1.status = Status.published ∧ p1.publishedAt = none then
      { p1 with publishedAt := some now }
    else p1
  { p2 with readingTime := computeReadingTime p2.content }

/-- Insert, subject to the primary `_id` index and the unique `slug`
index: a clash with any stored post raises a duplicate-key error. -/
def dbInsert (store : List Post) (p : Post) : Except DbError (List Post) :=
  if store.any (fun q => q.id == p.id || q.slug == p.slug) then
    Except.error DbError.duplicateKey
  else Except.ok (store ++ [p])

/-- `Post.create`, with the uniqueness CHECK against `checkStore` and the
WRITE against `writeStore`.  The two coincide for a serial execution
(`postCreate` below); they differ exactly in the documented race window,
where a concurrent create commits between this create's `findOne` check
and its own commit. -/
def postCreateAt (checkStore writeStore : List Post) (body : CreateBody)
    (authorId newId : String) (now : Nat) : Except DbError (List Post) :=
  let doc := createDoc body authorId newId
  if validatePost doc then
    dbInsert writeStore (preSaveHookNew checkStore doc body.status.isSome now)
  else Except.error DbError.validationErr

/-- `Post.create` in a serial execution. -/
def postCreate (store : List Post) (body : CreateBody) (authorId newId : String)
    (now : Nat) : Except DbError (List Post) :=
  postCreateAt store store body authorId newId now

/-- The catch-clause of `router.post('/')`: a Mongoose `ValidationError`
becomes 400 with details; every other error — a duplicate-key
`MongoServerError` included — falls through to the generic 500. -/
def createHandlerAt (checkStore writeStore : List Post) (caller : Caller)
    (body : CreateBody) (newId : String) (now : Nat) : HttpStatus × List Post :=
  match postCreateAt checkStore writeStore body caller.id newId now with
  | Except.ok s => (HttpStatus.created, s)
  | Except.error DbError.validationErr => (HttpStatus.badRequest, writeStore)
  | Except.error DbError.duplicateKey => (HttpStatus.serverError, writeStore)

/-- `POST /api/posts` in a serial execution. -/
def createHandler (store : List Post) (caller : Caller) (body : CreateBody)
    (newId : String) (now : Nat) : HttpStatus × List Post :=
  createHandlerAt store store caller body newId now

/-- The lookup shared by the update/get/delete/like routes: `findById`
when the parameter looks like an ObjectId, then `findOne({ slug })` as the
fallback. -/
def lookupPost (store : List Post) (param : String) : Option Post :=
  match (if isValidObjectId param then store.find? (fun p => p.id == param) else none) with
  | some p => some p
  | none => store.find? (fun p => p.slug == param)

/-- `findByIdAndUpdate(post._id, req.body)`: each supplied field is set,
everything else is kept.  No `pre('save')` hook runs on this path. -/
def applyUpdate (p : Post) (b : UpdateBody) : Post :=
  { p with
    title := b.title.getD p.title
    content := b.content.getD p.content
    status := b.status.getD p.status
    author := b.author.getD p.author
    slug := b.slug.getD p.slug }

/-- The write of `findByIdAndUpdate`: replaces the document with the given
id, subject to the unique `slug` index against every other post. -/
def dbUpdate (store : List Post) (targetId : String) (p : Post) :
    Except DbError (List Post) :=
  if store.any (fun q => q.id != targetId && q.slug == p.slug) then
    Except.error DbError.duplicateKey
  else Except.ok (store.map (fun q => if q.id == targetId then p else q))

/-- `PUT /api/posts/:id`: find by id or slug (404 when neither matches),
check ownership (403 when the caller is neither the author nor an admin),
then apply the body with `findByIdAndUpdate`. -/
def updateHandler (store : List Post) (caller : Caller) (param : String)
    (body : UpdateBody) : HttpStatus × List Post :=
  match lookupPost store param with
  | none => (HttpStatus.notFound, store)
  | some p =>
    if p.author ≠ caller.id ∧ caller.role ≠ Role.admin then
      (HttpStatus.forbidden, store)
    else
      match dbUpdate store p.id (applyUpdate p body) with
      | Except.ok s => (HttpStatus.ok, s)
      | Except.error _ => (HttpStatus.serverError, store)

/-- `likes.findIndex(like => like.user.toString() === req.user._id.toString())`. -/
def findIndexUser : List LikeEntry → String → Option Nat
  | [], _ => none
  | e :: es, u => if e.user == u then some 0 else (findIndexUser es u).map (· + 1)

/-- `likes.splice(i, 1)`: remove the element at index `i`. -/
def eraseAt : List LikeEntry → Nat → List LikeEntry
  | [], _ => []
  | _ :: es, 0 => es
  | e :: es, n + 1 => e :: eraseAt es n

/-- The body of `PUT /api/posts/:id/like`: remove the caller's entry when
present, append one when absent; the response's `isLiked` is
`likeIndex === -1`. -/
def toggleLike (likes : List LikeEntry) (u : String) : List LikeEntry × Bool :=
  match findIndexUser likes u with
  | some i => (eraseAt likes i, false)
  | none => (likes ++ [{ user := u }], true)

/-- Membership of a user in the likes array. -/
def hasUser (likes : List LikeEntry) (u : String) : Bool :=
  likes.any (fun e => e.user == u)

/-- Number of entries a user holds in the likes array. -/
def countUser (likes : List LikeEntry) (u : String) : Nat :=
  likes.countP (fun e => e.user == u)

/-- Proof-side reformulation of remove-at-found-index: drop the first
entry of the given user. -/
def removeFirst : List LikeEntry → String → List LikeEntry
  | [], _ => []
  | e :: es, u => if e.user == u then es else e :: removeFirst es u

/-- A serial history of the modelled mutating requests. -/
inductive Op where
  | create (caller : Caller) (body : CreateBody) (newId : String) (now : Nat)
  | update (caller : Caller) (param : String) (body : UpdateBody)

/-- Execute one request against the store. -/
def execOp (store : List Post) : Op → List Post
  | Op.create c b i n => (createHandler store c b i n).2
  | Op.update c p b => (updateHandler store c p b).2

/-- Execute a request history starting from the empty store. -/
def execOps (ops : List Op) : List Post :=
  ops.foldl execOp []

/-- `noDoubleHyphen l` holds when no two adjacent characters are both
hyphens. -/
def noDoubleHyphen : List Char → Bool
  | [] => true
  | [_] => true
  | a :: b :: rest => !(a == '-' && b == '-') && noDoubleHyphen (b :: rest)

/-! Concrete scenario data used by the claim evaluations. -/

/-- An authenticated author. -/
def demoCaller : Caller := { id := "cccccccccccccccccccccccc", role := Role.author }

/-- A fresh ObjectId. -/
def idA : String := "aaaaaaaaaaaaaaaaaaaaaaaa"

/-- Another fresh ObjectId. -/
def idB : String := "bbbbbbbbbbbbbbbbbbbbbbbb"

/-- The create body of the spec's scenario: title "Hello, World!". -/
def helloBody : CreateBody := { title := "Hello, World!", content := "greeting text" }

/-- The store after creating the first "Hello, World!" post. -/
def helloStore : List Post := (createHandler [] demoCaller helloBody idA 0).2

/-- The store after two back-to-back creates with the identical title. -/
def c2Store : List Post :=
  execOps [Op.create demoCaller helloBody idA 0, Op.create demoCaller helloBody idB 0]

/-- C1 scenario: a post created as a draft. -/
def c1Store : List Post :=
  (createHandler [] demoCaller { title := "Hello", content := "a few words" } idA 5).2

/-- C1 scenario: the draft is then published through `PUT /api/posts/:id`. -/
def c1After : List Post :=
  (updateHandler c1Store demoCaller idA { status := some Status.published }).2

/-- A 300-word content string. -/
def words300 : String := String.intercalate " " (List.replicate 300 "w")

/-- C5 scenario: a post created with three words of content. -/
def c5Store : List Post :=
  (createHandler [] demoCaller { title := "Reading", content := "only three words" } idB 0).2

/-- C5 scenario: its content is then replaced by 300 words through
`PUT /api/posts/:id`. -/
def c5After : List Post :=
  (updateHandler c5Store demoCaller idB { content := some words300 }).2

/-- C8 scenario: an update body that supplies a different author. -/
def authorBody : UpdateBody := { author := some "dddddddddddddddddddddddd" }

/-- A stored draft owned by the demo author. -/
def soloPost : Post :=
  { id := idA, title := "Solo", slug := "solo", content := "draft words",
    status := Status.draft, publishedAt := none, readingTime := 1,
    author := demoCaller.id, likes := [] }

/-- A one-post store: just the demo author's draft. -/
def soloStore : List Post := [soloPost]

/-- A likes array holding one entry of user "u1". -/
def demoLikes : List LikeEntry := [{ user := "u1" }]

end Blog

namespace Blog

theorem natStrAux_eq_digits : ∀ (n : Nat), 0 < n → ∀ (fuel : Nat), n < fuel →
    natStrAux fuel n = (Nat.digits 10 n).reverse.map digitChar := by
  intro n
  induction n using Nat.strong_induction_on with
  | _ n ih =>
    intro h0 fuel hf
    match fuel, hf with
    | fuel + 1, _ =>
      by_cases h10 : n < 10
      · simp [natStrAux, h10, Nat.digits_of_lt 10 n (by omega) h10]
      · have hmain : natStrAux (fuel + 1) n = natStrAux fuel (n / 10) ++ [digitChar (n % 10)] := by
          simp [natStrAux, h10]
        have hdivpos : 0 < n / 10 := Nat.div_pos (Nat.le_of_not_lt h10) (by norm_num)
        have hdivn : n / 10 < n := Nat.div_lt_self h0 (by norm_num)
        have hdivfuel : n / 10 < fuel := by omega
        rw [hmain, ih (n / 10) hdivn hdivpos fuel hdivfuel,
          Nat.digits_def' (by norm_num : (1 : ℕ) < 10) h0]
        simp

theorem digitChar_inj_of_lt :
    ∀ a, a < 10 → ∀ b, b < 10 → digitChar a = digitChar b → a = b := by decide

theorem map_digitChar_inj : ∀ (l1 l2 : List Nat), (∀ d ∈ l1, d < 10) → (∀ d ∈ l2, d < 10) →
    l1.map digitChar = l2.map digitChar → l1 = l2 := by
  intro l1
  induction l1 with
  | nil => intro l2 _ _ h; cases l2 <;> simp_all
  | cons a l ih =>
    intro l2 h1 h2 h
    cases l2 with
    | nil => simp_all
    | cons b m =>
      simp only [List.map_cons, List.cons.injEq] at h
      have hab := digitChar_inj_of_lt a (h1 a (by simp)) b (h2 b (by simp)) h.1
      subst hab
      have := ih m (fun d hd => h1 d (by simp [hd])) (fun d hd => h2 d (by simp [hd])) h.2
      simp [this]

theorem natStr_inj : ∀ m n, 0 < m → 0 < n → natStr m = natStr n → m = n := by
  intro m n hm hn h
  unfold natStr at h
  rw [natStrAux_eq_digits m hm (m + 1) (by omega),
    natStrAux_eq_digits n hn (n + 1) (by omega), List.asString_inj] at h
  have h3 := map_digitChar_inj _ _
    (fun d hd => Nat.digits_lt_base (by norm_num) (List.mem_reverse.mp hd))
    (fun d hd => Nat.digits_lt_base (by norm_num) (List.mem_reverse.mp hd)) h
  have h4 : Nat.digits 10 m = Nat.digits 10 n := by
    have := congrArg List.reverse h3
    simpa using this
  have h5 := congrArg (Nat.ofDigits 10) h4
  rw [Nat.ofDigits_digits, Nat.ofDigits_digits] at h5
  exact_mod_cast h5

theorem asString_data (l : List Char) : l.asString.data = l := rfl

theorem data_inj {s t : String} (h : s.data = t.data) : s = t := by
  cases s
  cases t
  exact congrArg String.mk h

theorem natStr_data_ne_nil (n : Nat) : (natStr n).data ≠ [] := by
  unfold natStr
  rw [asString_data]
  by_cases h : n < 10 <;> simp [natStrAux, h]

theorem slugCandidate_inj (base : String) : Function.Injective (slugCandidate base) := by
  intro i j h
  match i, j with
  | 0, 0 => rfl
  | 0, j + 1 =>
    exfalso
    have hl := congrArg String.length h
    simp only [slugCandidate, String.length_append] at hl
    have hpos : 0 < (natStr (j + 1)).length := List.length_pos.mpr (natStr_data_ne_nil (j + 1))
    omega
  | i + 1, 0 =>
    exfalso
    have hl := congrArg String.length h
    simp only [slugCandidate, String.length_append] at hl
    have hpos : 0 < (natStr (i + 1)).length := List.length_pos.mpr (natStr_data_ne_nil (i + 1))
    omega
  | i + 1, j + 1 =>
    have hd := congrArg String.data h
    simp only [slugCandidate, String.data_append, List.append_assoc] at hd
    have h2 := List.append_cancel_left hd
    have h3 := List.append_cancel_left h2
    have := natStr_inj (i + 1) (j + 1) (by omega) (by omega) (data_inj h3)
    omega

end Blog

namespace Blog

theorem exists_free_candidate (taken : List String) (base : String) :
    ∃ j, j ≤ taken.length ∧ slugCandidate base j ∉ taken := by
  by_contra hno
  push_neg at hno
  have hnodup : ((List.range (taken.length + 1)).map (slugCandidate base)).Nodup :=
    (List.nodup_range _).map (slugCandidate_inj base)
  have hsub : ((List.range (taken.length + 1)).map (slugCandidate base)).toFinset ⊆
      taken.toFinset := by
    intro s hs
    rw [List.mem_toFinset] at hs ⊢
    obtain ⟨j, hj, rfl⟩ := List.mem_map.mp hs
    have := List.mem_range.mp hj
    exact hno j (by omega)
  have h1 := Finset.card_le_card hsub
  rw [List.toFinset_card_of_nodup hnodup] at h1
  have h2 := List.toFinset_card_le (l := taken)
  simp only [List.length_map, List.length_range] at h1
  omega

theorem resolveSlugAux_eq_of_least (taken : List String) (base : String) :
    ∀ (fuel k m : Nat), k ≤ m → m < k + fuel → slugCandidate base m ∉ taken →
      (∀ j, k ≤ j → j < m → slugCandidate base j ∈ taken) →
      resolveSlugAux taken base fuel k = slugCandidate base m := by
  intro fuel
  induction fuel with
  | zero =>
    intro k m h1 h2 _ _
    exact absurd h2 (by omega)
  | succ fuel ih =>
    intro k m hkm hlt hfree hbelow
    by_cases h : slugCandidate base k ∈ taken
    · have hne : k ≠ m := by
        intro e
        subst e
        exact hfree h
      have hstep : resolveSlugAux taken base (fuel + 1) k =
          resolveSlugAux taken base fuel (k + 1) := by
        simp [resolveSlugAux, h]
      rw [hstep]
      exact ih (k + 1) m (by omega) (by omega) hfree (fun j hj1 hj2 => hbelow j (by omega) hj2)
    · have hm : m = k := by
        by_contra hne
        exact h (hbelow k (le_refl k) (by omega))
      subst hm
      simp [resolveSlugAux, h]

theorem resolveSlug_least (taken : List String) (base : String) :
    ∃ m, resolveSlug taken base = slugCandidate base m ∧ slugCandidate base m ∉ taken ∧
      m ≤ taken.length ∧ ∀ j < m, slugCandidate base j ∈ taken := by
  obtain ⟨j0, hj0le, hj0free⟩ := exists_free_candidate taken base
  have hex : ∃ j, slugCandidate base j ∉ taken := ⟨j0, hj0free⟩
  refine ⟨Nat.find hex, ?_, Nat.find_spec hex, ?_, ?_⟩
  · exact resolveSlugAux_eq_of_least taken base (taken.length + 1) 0 (Nat.find hex)
      (by omega) (by have := Nat.find_min' hex hj0free; omega) (Nat.find_spec hex)
      (fun j _ hj => Decidable.not_not.mp (Nat.find_min hex hj))
  · have := Nat.find_min' hex hj0free
    omega
  · exact fun j hj => Decidable.not_not.mp (Nat.find_min hex hj)

theorem resolveSlug_not_mem (taken : List String) (base : String) :
    resolveSlug taken base ∉ taken := by
  obtain ⟨m, he, hfree, _, _⟩ := resolveSlug_least taken base
  rw [he]
  exact hfree

end Blog

namespace Blog

theorem toNat_ofNat_valid {n : Nat} (h : n < 55296) : (Char.ofNat n).toNat = n := by
  have hv : n.isValidChar := Or.inl h
  unfold Char.ofNat
  rw [dif_pos hv]
  rfl

theorem uint32_le_toNat {a b : UInt32} (h : a ≤ b) : a.toNat ≤ b.toNat := by
  rw [UInt32.le_def, BitVec.le_def] at h
  exact h

theorem char_le_iff {a b : Char} : a ≤ b ↔ a.toNat ≤ b.toNat := by
  rw [Char.le_def, UInt32.le_def, BitVec.le_def]
  exact Iff.rfl

theorem toLower_toNat (d : Char) :
    (Char.toLower d).toNat =
      if 65 ≤ d.toNat ∧ d.toNat ≤ 90 then d.toNat + 32 else d.toNat := by
  unfold Char.toLower
  by_cases h : 65 ≤ d.toNat ∧ d.toNat ≤ 90
  · rw [if_pos ⟨h.1, h.2⟩, if_pos h]
    exact toNat_ofNat_valid (by omega)
  · rw [if_neg h, if_neg h]

theorem isUpper_toNat {c : Char} (h : c.isUpper = true) :
    65 ≤ c.toNat ∧ c.toNat ≤ 90 := by
  simp only [Char.isUpper, Bool.and_eq_true, decide_eq_true_eq] at h
  obtain ⟨h1, h2⟩ := h
  have g1 := uint32_le_toNat h1
  have g2 := uint32_le_toNat h2
  have e1 : ((65 : UInt32)).toNat = 65 := rfl
  have e2 : ((90 : UInt32)).toNat = 90 := rfl
  have e3 : c.val.toNat = c.toNat := rfl
  omega

theorem isLower_toNat {c : Char} (h : c.isLower = true) :
    97 ≤ c.toNat ∧ c.toNat ≤ 122 := by
  simp only [Char.isLower, Bool.and_eq_true, decide_eq_true_eq] at h
  obtain ⟨h1, h2⟩ := h
  have g1 := uint32_le_toNat h1
  have g2 := uint32_le_toNat h2
  have e1 : ((97 : UInt32)).toNat = 97 := rfl
  have e2 : ((122 : UInt32)).toNat = 122 := rfl
  have e3 : c.val.toNat = c.toNat := rfl
  omega

theorem isDigit_toNat {c : Char} (h : c.isDigit = true) :
    48 ≤ c.toNat ∧ c.toNat ≤ 57 := by
  simp only [Char.isDigit, Bool.and_eq_true, decide_eq_true_eq] at h
  obtain ⟨h1, h2⟩ := h
  have g1 := uint32_le_toNat h1
  have g2 := uint32_le_toNat h2
  have e1 : ((48 : UInt32)).toNat = 48 := rfl
  have e2 : ((57 : UInt32)).toNat = 57 := rfl
  have e3 : c.val.toNat = c.toNat := rfl
  omega

theorem charOk_of_toLower_alnum (d : Char) (halnum : (Char.toLower d).isAlphanum = true) :
    ('a' ≤ Char.toLower d ∧ Char.toLower d ≤ 'z') ∨
      ('0' ≤ Char.toLower d ∧ Char.toLower d ≤ '9') := by
  have htl := toLower_toNat d
  simp only [Char.isAlphanum, Char.isAlpha, Bool.or_eq_true] at halnum
  rcases halnum with (hup | hlow) | hdig
  · exfalso
    have := isUpper_toNat hup
    by_cases h : 65 ≤ d.toNat ∧ d.toNat ≤ 90
    · rw [if_pos h] at htl
      omega
    · rw [if_neg h] at htl
      omega
  · left
    have := isLower_toNat hlow
    constructor
    · rw [char_le_iff]
      have : ('a' : Char).toNat = 97 := rfl
      omega
    · rw [char_le_iff]
      have : ('z' : Char).toNat = 122 := rfl
      omega
  · right
    have := isDigit_toNat hdig
    constructor
    · rw [char_le_iff]
      have : ('0' : Char).toNat = 48 := rfl
      omega
    · rw [char_le_iff]
      have : ('9' : Char).toNat = 57 := rfl
      omega

end Blog

namespace Blog

theorem mem_collapseWs : ∀ (l : List Char) (flag : Bool) (c : Char),
    c ∈ collapseWs l flag → c = '-' ∨ (c ∈ l ∧ jsIsWs c = false) := by
  intro l
  induction l with
  | nil =>
    intro flag c h
    simp [collapseWs] at h
  | cons a l ih =>
    intro flag c h
    by_cases hws : jsIsWs a
    · cases flag with
      | true =>
        have h2 : c ∈ collapseWs l true := by simpa [collapseWs, hws] using h
        rcases ih true c h2 with h3 | h4
        · exact Or.inl h3
        · exact Or.inr ⟨List.mem_cons_of_mem a h4.1, h4.2⟩
      | false =>
        have h2 : c = '-' ∨ c ∈ collapseWs l true := by simpa [collapseWs, hws] using h
        rcases h2 with h3 | h3
        · exact Or.inl h3
        · rcases ih true c h3 with h4 | h5
          · exact Or.inl h4
          · exact Or.inr ⟨List.mem_cons_of_mem a h5.1, h5.2⟩
    · have h2 : c = a ∨ c ∈ collapseWs l false := by simpa [collapseWs, hws] using h
      rcases h2 with rfl | h3
      · exact Or.inr ⟨List.mem_cons_self c l, by simpa using hws⟩
      · rcases ih false c h3 with h4 | h5
        · exact Or.inl h4
        · exact Or.inr ⟨List.mem_cons_of_mem a h5.1, h5.2⟩

theorem noDoubleHyphen_cons_iff (a : Char) (l : List Char) :
    noDoubleHyphen (a :: l) = true ↔
      noDoubleHyphen l = true ∧ ¬(a = '-' ∧ l.head? = some '-') := by
  cases l with
  | nil => simp [noDoubleHyphen]
  | cons b m =>
    simp only [noDoubleHyphen, Bool.and_eq_true, Bool.not_eq_true', Bool.and_eq_false_iff,
      beq_eq_false_iff_ne, ne_eq, List.head?_cons, Option.some.injEq]
    constructor
    · rintro ⟨h1, h2⟩
      exact ⟨h2, by tauto⟩
    · rintro ⟨h2, h1⟩
      refine ⟨?_, h2⟩
      by_cases ha : a = '-'
      · right
        intro hb
        exact h1 ⟨ha, hb⟩
      · left
        exact ha

theorem collapseWs_noDouble : ∀ (l : List Char), (∀ c ∈ l, c ≠ '-') → ∀ flag : Bool,
    noDoubleHyphen (collapseWs l flag) = true ∧
      (flag = true → (collapseWs l flag).head? ≠ some '-') := by
  intro l
  induction l with
  | nil =>
    intro _ flag
    exact ⟨rfl, fun _ => by simp [collapseWs]⟩
  | cons a l ih =>
    intro hno flag
    have hl : ∀ c ∈ l, c ≠ '-' := fun c hc => hno c (List.mem_cons_of_mem a hc)
    have ha : a ≠ '-' := hno a (List.mem_cons_self a l)
    by_cases hws : jsIsWs a
    · cases flag with
      | true =>
        have heq : collapseWs (a :: l) true = collapseWs l true := by
          simp [collapseWs, hws]
        rw [heq]
        exact ⟨(ih hl true).1, fun _ => (ih hl true).2 rfl⟩
      | false =>
        have heq : collapseWs (a :: l) false = '-' :: collapseWs l true := by
          simp [collapseWs, hws]
        rw [heq]
        refine ⟨?_, fun hf => by simp at hf⟩
        rw [noDoubleHyphen_cons_iff]
        refine ⟨(ih hl true).1, ?_⟩
        rintro ⟨_, hh⟩
        exact (ih hl true).2 rfl hh
    · have heq : collapseWs (a :: l) flag = a :: collapseWs l false := by
        simp [collapseWs, hws]
      rw [heq]
      refine ⟨?_, fun _ => by simpa using ha⟩
      rw [noDoubleHyphen_cons_iff]
      refine ⟨(ih hl false).1, ?_⟩
      rintro ⟨haa, _⟩
      exact ha haa

theorem noDoubleHyphen_take : ∀ (l : List Char) (n : Nat),
    noDoubleHyphen l = true → noDoubleHyphen (l.take n) = true := by
  intro l
  induction l with
  | nil =>
    intro n _
    simp [noDoubleHyphen]
  | cons a l ih =>
    intro n h
    match n with
    | 0 => simp [noDoubleHyphen]
    | n + 1 =>
      rw [List.take_succ_cons, noDoubleHyphen_cons_iff]
      rw [noDoubleHyphen_cons_iff] at h
      refine ⟨ih n h.1, ?_⟩
      rintro ⟨ha, hh⟩
      apply h.2
      refine ⟨ha, ?_⟩
      match l, n with
      | [], _ => simp at hh
      | b :: m, 0 => simp at hh
      | b :: m, n + 1 => simpa using hh

end Blog

namespace Blog

theorem slugBase_chars (t : String) :
    ∀ c ∈ (slugBase t).data, ('a' ≤ c ∧ c ≤ 'z') ∨ ('0' ≤ c ∧ c ≤ '9') ∨ c = '-' := by
  intro c hc
  rw [slugBase, asString_data] at hc
  rcases mem_collapseWs _ _ _ (List.mem_of_mem_take hc) with h3 | ⟨hmem, hws⟩
  · exact Or.inr (Or.inr h3)
  · obtain ⟨hmemmap, hkeep⟩ := List.mem_filter.mp hmem
    obtain ⟨d, _, rfl⟩ := List.mem_map.mp hmemmap
    have halnum : (Char.toLower d).isAlphanum = true := by
      simp only [keepChar, Bool.or_eq_true] at hkeep
      rcases hkeep with h | h
      · exact h
      · rw [hws] at h
        exact absurd h (by simp)
    rcases charOk_of_toLower_alnum d halnum with h | h
    · exact Or.inl h
    · exact Or.inr (Or.inl h)

theorem slugBase_len (t : String) : (slugBase t).length ≤ 50 := by
  rw [slugBase, List.length_asString, List.length_take]
  omega

theorem slugBase_noDouble (t : String) : noDoubleHyphen (slugBase t).data = true := by
  rw [slugBase, asString_data]
  apply noDoubleHyphen_take
  apply (collapseWs_noDouble _ ?_ false).1
  intro c hcmem
  have hkeep := (List.mem_filter.mp hcmem).2
  intro hdash
  subst hdash
  simp [keepChar, jsIsWs, Char.isAlphanum, Char.isAlpha, Char.isUpper, Char.isLower,
    Char.isDigit] at hkeep

/-- C4 counterexample: the slug candidate of the title " a" is "-a", which
begins with a hyphen — the backend base-slug computation never trims, so a
leading/trailing whitespace in the title yields a leading/trailing hyphen,
contrary to the claim. -/
theorem slugBase_leading_hyphen :
    (slugBase " a").data.head? = some '-' ∧ slugBase " a" = "-a" := by decide

/-- C4 (amended): for every title, the candidate slug is built only from
lowercase letters, digits and hyphens, is at most 50 characters long, and
never contains two adjacent hyphens (each whitespace run collapses to a
single hyphen, as the concrete instance shows); it may however start or
end with a hyphen. -/
theorem slugBase_normalization :
    ∀ t : String,
      (∀ c ∈ (slugBase t).data, ('a' ≤ c ∧ c ≤ 'z') ∨ ('0' ≤ c ∧ c ≤ '9') ∨ c = '-') ∧
      (slugBase t).length ≤ 50 ∧
      noDoubleHyphen (slugBase t).data = true ∧
      slugBase "Hello,  World!" = "hello-world" :=
  fun t => ⟨slugBase_chars t, slugBase_len t, slugBase_noDouble t, by decide⟩

/-- C2 counterexample: the second post created with the title
"Hello, World!" receives the slug "hello-world-1", not "hello-world-2" —
the hook's counter starts at 1, so the suffixes tried are -1, -2, … -/
theorem second_slug_is_dash_one :
    c2Store.map Post.slug = ["hello-world", "hello-world-1"] ∧
      ("hello-world-1" : String) ≠ "hello-world-2" := by decide

/-- C2 (amended): on a collision the resolver appends the suffixes
-1, -2, -3, … in order and returns the first free candidate (the candidate
of the least free index); in particular a second post with the same title
as an existing "hello-world" post gets the slug "hello-world-1". -/
theorem resolver_first_free_suffix :
    (∀ (taken : List String) (base : String), ∃ m,
        resolveSlug taken base = slugCandidate base m ∧ slugCandidate base m ∉ taken ∧
          ∀ j < m, slugCandidate base j ∈ taken) ∧
      slugCandidate "hello-world" 1 = "hello-world-1" ∧
      c2Store.map Post.slug = ["hello-world", "hello-world-1"] := by
  refine ⟨?_, by decide, by decide⟩
  intro taken base
  obtain ⟨m, he, hfree, _, hb⟩ := resolveSlug_least taken base
  exact ⟨m, he, hfree, hb⟩

/-- C9: for every finite set of existing slugs and every base, the
uniqueness loop terminates within `taken.length + 1` probes (the fuelled
model never exhausts its fuel) and the returned slug belongs to no other
existing post at the moment of the check. -/
theorem resolver_terminates_and_unique :
    ∀ (taken : List String) (base : String),
      resolveSlug taken base ∉ taken ∧
        ∃ k, k ≤ taken.length ∧ resolveSlug taken base = slugCandidate base k := by
  intro taken base
  obtain ⟨m, he, hfree, hle, _⟩ := resolveSlug_least taken base
  exact ⟨he ▸ hfree, m, hle, he⟩

end Blog

namespace Blog

theorem lookupPost_mem {store : List Post} {param : String} {p : Post}
    (h : lookupPost store param = some p) : p ∈ store := by
  unfold lookupPost at h
  by_cases hv : isValidObjectId param
  · rw [if_pos hv] at h
    cases hfind : store.find? (fun q => q.id == param) with
    | some q =>
      rw [hfind] at h
      cases h
      exact List.mem_of_find?_eq_some hfind
    | none =>
      rw [hfind] at h
      exact List.mem_of_find?_eq_some h
  · rw [if_neg hv] at h
    exact List.mem_of_find?_eq_some h

theorem lookupPost_eq_none_iff (store : List Post) (param : String) :
    lookupPost store param = none ↔
      ∀ p ∈ store, ¬((isValidObjectId param = true ∧ p.id = param) ∨ p.slug = param) := by
  unfold lookupPost
  by_cases hv : isValidObjectId param
  · rw [if_pos hv]
    cases hfind : store.find? (fun q => q.id == param) with
    | some q =>
      constructor
      · intro h
        exact Option.noConfusion h
      · intro hall
        exfalso
        exact hall q (List.mem_of_find?_eq_some hfind)
          (Or.inl ⟨hv, by simpa using List.find?_some hfind⟩)
    | none =>
      show store.find? (fun p => p.slug == param) = none ↔ _
      constructor
      · intro h p hp hmatch
        rcases hmatch with ⟨_, hid⟩ | hslug
        · have := List.find?_eq_none.mp hfind p hp
          simp at this
          exact this hid
        · have := List.find?_eq_none.mp h p hp
          simp at this
          exact this hslug
      · intro hall
        rw [List.find?_eq_none]
        intro p hp
        simp only [beq_iff_eq]
        intro hslug
        exact hall p hp (Or.inr hslug)
  · rw [if_neg hv]
    constructor
    · intro h p hp hmatch
      rcases hmatch with ⟨hvv, _⟩ | hslug
      · exact hv hvv
      · have := List.find?_eq_none.mp h p hp
        simp at this
        exact this hslug
    · intro hall
      rw [List.find?_eq_none]
      intro p hp
      simp only [beq_iff_eq]
      intro hslug
      exact hall p hp (Or.inr hslug)

/-- C7: the update route answers 404 exactly when no stored post matches
the parameter as an id (in ObjectId format) or as a slug, answers 403 when
a post is found but the caller is neither its author nor an admin, and in
both failure cases returns the store unchanged: the error is detected
before any write. -/
theorem update_notfound_forbidden_no_write :
    ∀ (store : List Post) (caller : Caller) (param : String) (body : UpdateBody),
      (lookupPost store param = none ↔
        ∀ p ∈ store, ¬((isValidObjectId param = true ∧ p.id = param) ∨ p.slug = param)) ∧
      (lookupPost store param = none →
        updateHandler store caller param body = (HttpStatus.notFound, store)) ∧
      (∀ p, lookupPost store param = some p → p.author ≠ caller.id →
        caller.role ≠ Role.admin →
        updateHandler store caller param body = (HttpStatus.forbidden, store)) := by
  intro store caller param body
  refine ⟨lookupPost_eq_none_iff store param, ?_, ?_⟩
  · intro h
    simp only [updateHandler, h]
  · intro p hp hauthor hrole
    simp only [updateHandler, hp]
    rw [if_pos ⟨hauthor, hrole⟩]

/-- C7 witness: concrete instances of both failure modes. -/
theorem update_notfound_forbidden_no_write_witness :
    updateHandler [] demoCaller "missing" {} = (HttpStatus.notFound, []) ∧
      updateHandler soloStore { id := idB, role := Role.author } idA {} =
        (HttpStatus.forbidden, soloStore) :=
  ⟨(update_notfound_forbidden_no_write [] demoCaller "missing" {}).2.1 (by decide),
    (update_notfound_forbidden_no_write soloStore { id := idB, role := Role.author } idA
      {}).2.2 soloPost (by decide) (by decide) (by decide)⟩

/-- C1 (code-bug evidence): a post created as a draft has `publishedAt`
unset; publishing it through `PUT /api/posts/:id` flips its status to
`published` yet leaves `publishedAt` unset, because `findByIdAndUpdate`
bypasses the `pre('save')` hook whose comment says it sets `publishedAt`
when status changes to published. -/
theorem publish_via_update_leaves_publishedAt_unset :
    c1Store.map Post.publishedAt = [none] ∧
      c1After.map Post.status = [Status.published] ∧
      c1After.map Post.publishedAt = [none] := by decide

/-- C5 (code-bug evidence): a post created with three words of content has
reading time 1; replacing its content with 300 words through
`PUT /api/posts/:id` leaves the stored reading time at 1 even though the
hook formula on the new content yields 2 — `findByIdAndUpdate` bypasses
the hook that recomputes it.  Moreover the hook formula itself gives 1
(not 0) on empty content, as `"".split(/\s+/)` is `[""]`. -/
theorem reading_time_stale_on_update :
    c5Store.map Post.readingTime = [1] ∧
      c5After.map Post.content = [words300] ∧
      c5After.map Post.readingTime = [1] ∧
      computeReadingTime words300 = 2 ∧
      computeReadingTime "" = 1 := by decide

/-- C6 counterexample: the documented race, two same-title creates whose
uniqueness checks both ran before either commit.  The second commit
violates the unique slug index, and the route surfaces it as the same
generic 500 as any unexpected error, with the store unchanged: no
distinct retryable conflict kind, no regenerated slug, no retried write. -/
theorem race_dup_key_gives_500_no_retry :
    createHandlerAt [] helloStore demoCaller helloBody idB 0 =
      (HttpStatus.serverError, helloStore) := by decide

/-- C6 (amended): a duplicate-key failure at commit surfaces as the
generic 500 server error (only a validation failure gets a distinct kind,
400), and no error condition triggers a retry: every non-created outcome
leaves the store unchanged, with no second write. -/
theorem conflict_surfaces_as_generic_500 :
    ∀ (checkStore writeStore : List Post) (caller : Caller) (body : CreateBody)
      (newId : String) (now : Nat),
      (postCreateAt checkStore writeStore body caller.id newId now =
          Except.error DbError.duplicateKey →
        createHandlerAt checkStore writeStore caller body newId now =
          (HttpStatus.serverError, writeStore)) ∧
      (postCreateAt checkStore writeStore body caller.id newId now =
          Except.error DbError.validationErr →
        createHandlerAt checkStore writeStore caller body newId now =
          (HttpStatus.badRequest, writeStore)) ∧
      (∀ r s, createHandlerAt checkStore writeStore caller body newId now = (r, s) →
        r ≠ HttpStatus.created → s = writeStore) := by
  intro cs ws caller body newId now
  refine ⟨?_, ?_, ?_⟩
  · intro h
    unfold createHandlerAt
    rw [h]
  · intro h
    unfold createHandlerAt
    rw [h]
  · intro r s h hr
    unfold createHandlerAt at h
    cases hpc : postCreateAt cs ws body caller.id newId now with
    | ok s2 =>
      rw [hpc] at h
      simp only [Prod.mk.injEq] at h
      exact absurd h.1.symm hr
    | error e =>
      cases e <;> rw [hpc] at h <;> simp only [Prod.mk.injEq] at h <;> exact h.2.symm

/-- C8 counterexample: the owner updates the post with a body that
contains an `author` field; the update succeeds and the stored author
changes from the creator to the supplied id. -/
theorem author_changed_by_update :
    (updateHandler soloStore demoCaller idA authorBody).1 = HttpStatus.ok ∧
      ((updateHandler soloStore demoCaller idA authorBody).2).map Post.author =
        ["dddddddddddddddddddddddd"] ∧
      soloStore.map Post.author = [demoCaller.id] := by decide

/-- C8 (amended): for every update whose body does not contain an
`author` field, the stored authors are unchanged (stated for stores with
distinct ids, which every reachable store has). -/
theorem author_preserved_without_author_field :
    ∀ (store : List Post) (caller : Caller) (param : String) (body : UpdateBody),
      (store.map Post.id).Nodup → body.author = none →
      ((updateHandler store caller param body).2).map Post.author =
        store.map Post.author := by
  intro store caller param body hnodup hauthor
  cases hl : lookupPost store param with
  | none => simp [updateHandler, hl]
  | some p =>
    simp only [updateHandler, hl]
    split
    · rfl
    · cases hdb : dbUpdate store p.id (applyUpdate p body) with
      | error e => rfl
      | ok s2 =>
        show List.map Post.author s2 = List.map Post.author store
        unfold dbUpdate at hdb
        by_cases hany : store.any (fun q => q.id != p.id && q.slug == (applyUpdate p body).slug)
        · rw [if_pos hany] at hdb
          cases hdb
        · rw [if_neg hany] at hdb
          cases hdb
          rw [List.map_map]
          apply List.map_congr_left
          intro q hq
          show Post.author (if q.id == p.id then applyUpdate p body else q) = q.author
          by_cases hqe : q.id == p.id
          · rw [if_pos hqe]
            have hqid : q.id = p.id := by simpa using hqe
            have hqp : q = p :=
              List.inj_on_of_nodup_map hnodup hq (lookupPost_mem hl) hqid
            subst hqp
            simp [applyUpdate, hauthor]
          · rw [if_neg hqe]

/-- C8 witness: a concrete update without an author field preserves the
stored authors. -/
theorem author_preserved_without_author_field_witness :
    ((updateHandler soloStore demoCaller idA { title := some "New title" }).2).map
        Post.author = soloStore.map Post.author :=
  author_preserved_without_author_field soloStore demoCaller idA
    { title := some "New title" } (by decide) rfl

end Blog

namespace Blog

theorem hasUser_iff_count {l : List LikeEntry} {u : String} :
    hasUser l u = true ↔ 0 < countUser l u := by
  rw [hasUser, countUser, List.any_eq_true, List.countP_pos_iff]

theorem hasUser_false_iff_count {l : List LikeEntry} {u : String} :
    hasUser l u = false ↔ countUser l u = 0 := by
  rw [← Bool.not_eq_true, hasUser_iff_count]
  omega

theorem findIndexUser_eq_none_iff (l : List LikeEntry) (u : String) :
    findIndexUser l u = none ↔ hasUser l u = false := by
  induction l with
  | nil => simp [findIndexUser, hasUser]
  | cons e es ih =>
    by_cases he : e.user == u
    · simp [findIndexUser, hasUser, he]
    · simp [findIndexUser, hasUser, he, ih]

theorem eraseAt_findIndexUser (l : List LikeEntry) (u : String) :
    ∀ i, findIndexUser l u = some i → eraseAt l i = removeFirst l u := by
  induction l with
  | nil =>
    intro i h
    cases h
  | cons e es ih =>
    intro i h
    by_cases he : e.user == u
    · simp only [findIndexUser, if_pos he, Option.some.injEq] at h
      subst h
      simp [eraseAt, removeFirst, he]
    · simp only [findIndexUser, if_neg he, Option.map_eq_some'] at h
      obtain ⟨j, hj, rfl⟩ := h
      simp [eraseAt, removeFirst, he, ih j hj]

theorem countUser_cons (e : LikeEntry) (l : List LikeEntry) (v : String) :
    countUser (e :: l) v = countUser l v + (if e.user == v then 1 else 0) := by
  simp [countUser, List.countP_cons]

theorem countUser_removeFirst_self (l : List LikeEntry) (u : String)
    (h : hasUser l u = true) : countUser (removeFirst l u) u + 1 = countUser l u := by
  induction l with
  | nil => simp [hasUser] at h
  | cons e es ih =>
    by_cases he : e.user == u
    · have hrf : removeFirst (e :: es) u = es := by simp [removeFirst, he]
      rw [hrf, countUser_cons, if_pos he]
    · have hes : hasUser es u = true := by
        simpa [hasUser, he] using h
      have hrf : removeFirst (e :: es) u = e :: removeFirst es u := by
        simp [removeFirst, he]
      rw [hrf, countUser_cons, countUser_cons]
      simp only [if_neg he]
      have := ih hes
      omega

theorem countUser_removeFirst_other (l : List LikeEntry) (u v : String) (hne : v ≠ u) :
    countUser (removeFirst l u) v = countUser l v := by
  induction l with
  | nil => rfl
  | cons e es ih =>
    by_cases he : e.user == u
    · have heu : e.user = u := by simpa using he
      have hev : ¬(e.user == v) := by
        simp only [heu, beq_iff_eq]
        exact fun hv => hne hv.symm
      have hrf : removeFirst (e :: es) u = es := by simp [removeFirst, he]
      rw [hrf, countUser_cons, if_neg hev]
      omega
    · have hrf : removeFirst (e :: es) u = e :: removeFirst es u := by
        simp [removeFirst, he]
      rw [hrf, countUser_cons, countUser_cons, ih]

theorem countUser_append_single (l : List LikeEntry) (u v : String) :
    countUser (l ++ [{ user := u }]) v = countUser l v + (if u == v then 1 else 0) := by
  simp [countUser, List.countP_append, List.countP_cons]

theorem hasUser_removeFirst_other (l : List LikeEntry) (u v : String) (hne : v ≠ u) :
    hasUser (removeFirst l u) v = hasUser l v := by
  by_cases h : hasUser l v
  · rw [h, hasUser_iff_count, countUser_removeFirst_other l u v hne]
    exact hasUser_iff_count.mp h
  · rw [Bool.not_eq_true] at h
    rw [h, hasUser_false_iff_count, countUser_removeFirst_other l u v hne]
    exact hasUser_false_iff_count.mp h

theorem hasUser_append_single_self (l : List LikeEntry) (u : String) :
    hasUser (l ++ [{ user := u }]) u = true := by
  rw [hasUser_iff_count, countUser_append_single]
  simp

theorem hasUser_append_single_other (l : List LikeEntry) (u v : String) (hne : v ≠ u) :
    hasUser (l ++ [{ user := u }]) v = hasUser l v := by
  have hne2 : ¬(u == v) := by
    simp only [beq_iff_eq]
    exact fun hv => hne hv.symm
  by_cases h : hasUser l v
  · rw [h, hasUser_iff_count, countUser_append_single, if_neg hne2]
    have := hasUser_iff_count.mp h
    omega
  · rw [Bool.not_eq_true] at h
    rw [h, hasUser_false_iff_count, countUser_append_single, if_neg hne2]
    have := hasUser_false_iff_count.mp h
    omega

theorem removeFirst_append_absent (l : List LikeEntry) (u : String)
    (h : hasUser l u = false) : removeFirst (l ++ [{ user := u }]) u = l := by
  induction l with
  | nil => simp [removeFirst]
  | cons e es ih =>
    have he : ¬(e.user == u) := by
      intro hh
      simp [hasUser, hh] at h
    have hes : hasUser es u = false := by
      simpa [hasUser, he] using h
    simp [removeFirst, he, ih hes]

/-- C10: on a post whose likes hold at most one entry per user, the like
endpoint's toggle removes the caller's entry when present and appends
exactly one when absent, so no duplicate entry is ever introduced; the
reported `isLiked` equals the caller's membership after the call;
membership is negated by each call; and two consecutive calls by the same
user restore the original likes membership for every user. -/
theorem like_toggle_involution :
    ∀ (likes : List LikeEntry) (u : String),
      (∀ v, countUser likes v ≤ 1) →
      ((toggleLike likes u).2 = hasUser (toggleLike likes u).1 u) ∧
      (hasUser (toggleLike likes u).1 u = !hasUser likes u) ∧
      (∀ v, countUser (toggleLike likes u).1 v ≤ 1) ∧
      (hasUser likes u = false → (toggleLike likes u).1 = likes ++ [{ user := u }]) ∧
      (∀ v, hasUser (toggleLike (toggleLike likes u).1 u).1 v = hasUser likes v) := by
  intro likes u hcount
  cases hfi : findIndexUser likes u with
  | none =>
    have habs : hasUser likes u = false := (findIndexUser_eq_none_iff likes u).mp hfi
    have hcnt0 : countUser likes u = 0 := hasUser_false_iff_count.mp habs
    have htog : toggleLike likes u = (likes ++ [{ user := u }], true) := by
      simp [toggleLike, hfi]
    rw [htog]
    have hmem : hasUser (likes ++ [{ user := u }]) u = true :=
      hasUser_append_single_self likes u
    refine ⟨hmem.symm, by rw [hmem, habs]; rfl, ?_, fun _ => rfl, ?_⟩
    · intro v
      rw [countUser_append_single]
      by_cases hv : u == v
      · have huv : u = v := by simpa using hv
        subst huv
        rw [if_pos hv, hcnt0]
      · rw [if_neg hv]
        have := hcount v
        omega
    · intro v
      have hfi2 : findIndexUser (likes ++ [{ user := u }]) u ≠ none := by
        intro hnone
        rw [findIndexUser_eq_none_iff] at hnone
        rw [hnone] at hmem
        cases hmem
      cases hfi2e : findIndexUser (likes ++ [{ user := u }]) u with
      | none => exact absurd hfi2e hfi2
      | some i =>
        have htog2 : (toggleLike (likes ++ [{ user := u }]) u).1 =
            removeFirst (likes ++ [{ user := u }]) u := by
          simp [toggleLike, hfi2e, eraseAt_findIndexUser _ u i hfi2e]
        rw [htog2, removeFirst_append_absent likes u habs]
  | some i =>
    have hpres : hasUser likes u = true := by
      by_contra hh
      rw [Bool.not_eq_true] at hh
      rw [(findIndexUser_eq_none_iff likes u).mpr hh] at hfi
      cases hfi
    have htog1 : (toggleLike likes u).1 = removeFirst likes u := by
      simp [toggleLike, hfi, eraseAt_findIndexUser likes u i hfi]
    have htog2 : (toggleLike likes u).2 = false := by
      simp [toggleLike, hfi]
    have hafter : countUser (removeFirst likes u) u = 0 := by
      have h1 := countUser_removeFirst_self likes u hpres
      have h2 := hcount u
      omega
    have hmem : hasUser (removeFirst likes u) u = false :=
      hasUser_false_iff_count.mpr hafter
    rw [htog1, htog2]
    refine ⟨hmem.symm, by rw [hmem, hpres]; rfl, ?_, ?_, ?_⟩
    · intro v
      by_cases hv : v = u
      · subst hv
        omega
      · rw [countUser_removeFirst_other likes u v hv]
        exact hcount v
    · intro hfalse
      rw [hpres] at hfalse
      cases hfalse
    · intro v
      have hfi3 : findIndexUser (removeFirst likes u) u = none :=
        (findIndexUser_eq_none_iff _ u).mpr hmem
      have htog3 : (toggleLike (removeFirst likes u) u).1 =
          removeFirst likes u ++ [{ user := u }] := by
        simp [toggleLike, hfi3]
      rw [htog3]
      by_cases hv : v = u
      · subst hv
        rw [hasUser_append_single_self, hpres]
      · rw [hasUser_append_single_other _ u v hv, hasUser_removeFirst_other likes u v hv]

/-- C10 witness: the toggle behaviour at a concrete one-entry likes array
and a distinct caller. -/
theorem like_toggle_involution_witness :
    ((toggleLike demoLikes "u2").2 = hasUser (toggleLike demoLikes "u2").1 "u2") ∧
      (hasUser (toggleLike demoLikes "u2").1 "u2" = !hasUser demoLikes "u2") ∧
      (∀ v, countUser (toggleLike demoLikes "u2").1 v ≤ 1) ∧
      (hasUser demoLikes "u2" = false →
        (toggleLike demoLikes "u2").1 = demoLikes ++ [{ user := "u2" }]) ∧
      (∀ v, hasUser (toggleLike (toggleLike demoLikes "u2").1 "u2").1 v =
        hasUser demoLikes v) :=
  like_toggle_involution demoLikes "u2" (by
    intro v
    simp only [demoLikes, countUser_cons]
    have h0 : countUser [] v = 0 := rfl
    rw [h0]
    split <;> omega)

end Blog

namespace Blog

theorem applyUpdate_id (p : Post) (b : UpdateBody) : (applyUpdate p b).id = p.id := rfl

theorem not_any_two {store : List Post} {f g : Post → Bool}
    (h : ¬store.any (fun q => f q || g q) = true) :
    ∀ q ∈ store, f q = false ∧ g q = false := by
  intro q hq
  rw [List.any_eq_true] at h
  push_neg at h
  have := h q hq
  constructor
  · by_contra hf
    rw [Bool.not_eq_false] at hf
    exact this (by rw [hf]; rfl)
  · by_contra hg
    rw [Bool.not_eq_false] at hg
    exact this (by rw [hg, Bool.or_true])

theorem dbInsert_inv {store : List Post} {p : Post} {s2 : List Post}
    (h : dbInsert store p = Except.ok s2)
    (hids : (store.map Post.id).Nodup) (hslugs : (store.map Post.slug).Nodup) :
    (s2.map Post.id).Nodup ∧ (s2.map Post.slug).Nodup := by
  unfold dbInsert at h
  by_cases hany : store.any (fun q => q.id == p.id || q.slug == p.slug)
  · rw [if_pos hany] at h
    cases h
  · rw [if_neg hany] at h
    cases h
    have hfresh := not_any_two hany
    constructor
    · rw [List.map_append, List.nodup_append]
      refine ⟨hids, List.nodup_singleton _, ?_⟩
      intro a ha hb
      rw [List.map_singleton, List.mem_singleton] at hb
      subst hb
      obtain ⟨q, hq, hqe⟩ := List.mem_map.mp ha
      have := (hfresh q hq).1
      rw [hqe] at this
      simp at this
    · rw [List.map_append, List.nodup_append]
      refine ⟨hslugs, List.nodup_singleton _, ?_⟩
      intro a ha hb
      rw [List.map_singleton, List.mem_singleton] at hb
      subst hb
      obtain ⟨q, hq, hqe⟩ := List.mem_map.mp ha
      have := (hfresh q hq).2
      rw [hqe] at this
      simp at this

theorem replace_slug_nodup : ∀ (store : List Post) (pid : String) (p' : Post),
    (store.map Post.id).Nodup → (store.map Post.slug).Nodup →
    (∀ q ∈ store, q.id ≠ pid → q.slug ≠ p'.slug) →
    ((store.map (fun q => if q.id == pid then p' else q)).map Post.slug).Nodup := by
  intro store
  induction store with
  | nil =>
    intro pid p' _ _ _
    simp
  | cons q rest ih =>
    intro pid p' hids hslugs hfresh
    rw [List.map_cons, List.nodup_cons] at hids hslugs
    by_cases hq : q.id == pid
    · have hqid : q.id = pid := by simpa using hq
      have hrestid : ∀ r ∈ rest, r.id ≠ pid := by
        intro r hr hre
        apply hids.1
        rw [hqid, ← hre]
        exact List.mem_map_of_mem Post.id hr
      have hrest_eq : rest.map (fun r => if r.id == pid then p' else r) = rest := by
        have h1 : rest.map (fun r => if r.id == pid then p' else r) = rest.map id :=
          List.map_congr_left (fun r hr => by
            rw [if_neg (by simpa using hrestid r hr)]
            rfl)
        rw [h1, List.map_id]
      rw [List.map_cons, if_pos hq, hrest_eq, List.map_cons, List.nodup_cons]
      refine ⟨?_, hslugs.2⟩
      intro hmem
      obtain ⟨r, hr, hre⟩ := List.mem_map.mp hmem
      exact hfresh r (List.mem_cons_of_mem q hr) (hrestid r hr) hre
    · have hqid : q.id ≠ pid := by simpa using hq
      rw [List.map_cons, if_neg hq, List.map_cons, List.nodup_cons]
      constructor
      · intro hmem
        obtain ⟨r2, hr2, hre2⟩ := List.mem_map.mp hmem
        obtain ⟨r, hr, hre⟩ := List.mem_map.mp hr2
        by_cases hrq : r.id == pid
        · rw [if_pos hrq] at hre
          subst hre
          exact hfresh q (List.mem_cons_self q rest) hqid hre2.symm
        · rw [if_neg hrq] at hre
          subst hre
          apply hslugs.1
          rw [← hre2]
          exact List.mem_map_of_mem Post.slug hr
      · exact ih pid p' hids.2 hslugs.2
          (fun r hr => hfresh r (List.mem_cons_of_mem q hr))

theorem dbUpdate_inv {store : List Post} {pid : String} {p' : Post} {s2 : List Post}
    (hid : p'.id = pid)
    (h : dbUpdate store pid p' = Except.ok s2)
    (hids : (store.map Post.id).Nodup) (hslugs : (store.map Post.slug).Nodup) :
    (s2.map Post.id).Nodup ∧ (s2.map Post.slug).Nodup := by
  unfold dbUpdate at h
  by_cases hany : store.any (fun q => q.id != pid && q.slug == p'.slug)
  · rw [if_pos hany] at h
    cases h
  · rw [if_neg hany] at h
    cases h
    have hfresh : ∀ q ∈ store, q.id ≠ pid → q.slug ≠ p'.slug := by
      intro q hq hqid hqs
      rw [List.any_eq_true] at hany
      push_neg at hany
      apply hany q hq
      have h1 : (q.id != pid) = true := by simpa using hqid
      have h2 : (q.slug == p'.slug) = true := by simpa using hqs
      rw [h1, h2]
      rfl
    constructor
    · have heq : (store.map (fun q => if q.id == pid then p' else q)).map Post.id =
          store.map Post.id := by
        rw [List.map_map]
        apply List.map_congr_left
        intro q hq
        show Post.id (if q.id == pid then p' else q) = q.id
        by_cases hqe : q.id == pid
        · rw [if_pos hqe, hid]
          exact ((by simpa using hqe : q.id = pid)).symm
        · rw [if_neg hqe]
      rw [heq]
      exact hids
    · exact replace_slug_nodup store pid p' hids hslugs hfresh

theorem createHandler_inv (store : List Post) (c : Caller) (b : CreateBody)
    (i : String) (n : Nat)
    (h : (store.map Post.id).Nodup ∧ (store.map Post.slug).Nodup) :
    (((createHandler store c b i n).2).map Post.id).Nodup ∧
      (((createHandler store c b i n).2).map Post.slug).Nodup := by
  unfold createHandler createHandlerAt
  cases hpc : postCreateAt store store b c.id i n with
  | error e => cases e <;> exact h
  | ok s2 =>
    unfold postCreateAt at hpc
    by_cases hval : validatePost (createDoc b c.id i)
    · rw [if_pos hval] at hpc
      exact dbInsert_inv hpc h.1 h.2
    · rw [if_neg hval] at hpc
      cases hpc

theorem updateHandler_inv (store : List Post) (c : Caller) (param : String) (b : UpdateBody)
    (h : (store.map Post.id).Nodup ∧ (store.map Post.slug).Nodup) :
    (((updateHandler store c param b).2).map Post.id).Nodup ∧
      (((updateHandler store c param b).2).map Post.slug).Nodup := by
  cases hl : lookupPost store param with
  | none =>
    simp only [updateHandler, hl]
    exact h
  | some p =>
    simp only [updateHandler, hl]
    split
    · exact h
    · cases hdb : dbUpdate store p.id (applyUpdate p b) with
      | error e => exact h
      | ok s2 =>
        show ((s2 : List Post).map Post.id).Nodup ∧ ((s2 : List Post).map Post.slug).Nodup
        exact dbUpdate_inv (applyUpdate_id p b) hdb h.1 h.2

theorem execOp_inv (store : List Post) (op : Op)
    (h : (store.map Post.id).Nodup ∧ (store.map Post.slug).Nodup) :
    (((execOp store op).map Post.id).Nodup ∧ ((execOp store op).map Post.slug).Nodup) := by
  cases op with
  | create c b i n => exact createHandler_inv store c b i n h
  | update c p b => exact updateHandler_inv store c p b h

theorem foldl_inv : ∀ (ops : List Op) (store : List Post),
    (store.map Post.id).Nodup ∧ (store.map Post.slug).Nodup →
    ((ops.foldl execOp store).map Post.id).Nodup ∧
      ((ops.foldl execOp store).map Post.slug).Nodup := by
  intro ops
  induction ops with
  | nil => intro store h; exact h
  | cons op rest ih =>
    intro store h
    rw [List.foldl_cons]
    exact ih (execOp store op) (execOp_inv store op h)

end Blog

namespace Blog

theorem preSaveHookNew_draft (store : List Post) (p : Post) (n : Nat)
    (hslug : p.slug = "") :
    preSaveHookNew store p false n =
      { p with
        slug := resolveSlug ((store.filter (fun q => q.id != p.id)).map Post.slug)
          (slugBase p.title)
        readingTime := computeReadingTime p.content } := by
  simp only [preSaveHookNew, hslug, if_true, if_pos rfl]
  rw [if_neg ?hcond]
  case hcond =>
    rintro ⟨hfalse, -⟩
    cases hfalse

theorem createHandler_fresh_success (store : List Post) (c : Caller)
    (title content : String) (i : String) (n : Nat)
    (hid : ∀ q ∈ store, q.id ≠ i)
    (ht1 : title ≠ "") (ht2 : title.length ≤ 200) (hc : content ≠ "") :
    ∃ doc : Post, doc.id = i ∧
      doc.slug = resolveSlug (store.map Post.slug) (slugBase title) ∧
      createHandler store c { title := title, content := content } i n =
        (HttpStatus.created, store ++ [doc]) := by
  have hval : validatePost (createDoc { title := title, content := content } c.id i) = true := by
    simp only [validatePost, createDoc, Bool.and_eq_true, bne_iff_ne, ne_eq,
      decide_eq_true_eq]
    exact ⟨⟨ht1, ht2⟩, hc⟩
  have hfilter : store.filter
      (fun q => q.id != (createDoc { title := title, content := content } c.id i).id) = store := by
    rw [List.filter_eq_self]
    intro q hq
    simpa using hid q hq
  have hhook := preSaveHookNew_draft store
    (createDoc { title := title, content := content } c.id i) n rfl
  rw [hfilter] at hhook
  set doc : Post :=
    { createDoc { title := title, content := content } c.id i with
      slug := resolveSlug (store.map Post.slug)
        (slugBase (createDoc { title := title, content := content } c.id i).title)
      readingTime :=
        computeReadingTime (createDoc { title := title, content := content } c.id i).content }
    with hdocdef
  have hdocid : doc.id = i := rfl
  have hdocslug : doc.slug = resolveSlug (store.map Post.slug) (slugBase title) := rfl
  have hfree : resolveSlug (store.map Post.slug) (slugBase title) ∉ store.map Post.slug :=
    resolveSlug_not_mem _ _
  have hins : dbInsert store doc = Except.ok (store ++ [doc]) := by
    unfold dbInsert
    rw [if_neg ?hins1]
    case hins1 =>
      intro hany
      rw [List.any_eq_true] at hany
      obtain ⟨q, hq, hqe⟩ := hany
      rw [Bool.or_eq_true] at hqe
      rcases hqe with h1 | h2
      · exact hid q hq (by simpa [hdocid] using h1)
      · apply hfree
        have : q.slug = doc.slug := by simpa using h2
        rw [← hdocslug, ← this]
        exact List.mem_map_of_mem Post.slug hq
  refine ⟨doc, hdocid, hdocslug, ?_⟩
  unfold createHandler createHandlerAt postCreateAt
  rw [if_pos hval]
  have hset : (({ title := title, content := content } : CreateBody)).status.isSome = false := rfl
  rw [hset, hhook, hins]

theorem creates_same_title (c : Caller) (title content : String) (n : Nat) :
    ∀ (ids : List String) (store : List Post),
      ids.Nodup → (∀ i ∈ ids, ∀ q ∈ store, q.id ≠ i) →
      (store.map Post.id).Nodup → (store.map Post.slug).Nodup →
      title ≠ "" → title.length ≤ 200 → content ≠ "" →
      ((ids.map (fun i => Op.create c { title := title, content := content } i n)).foldl
          execOp store).length = store.length + ids.length ∧
      (((ids.map (fun i => Op.create c { title := title, content := content } i n)).foldl
          execOp store).map Post.slug).Nodup := by
  intro ids
  induction ids with
  | nil =>
    intro store _ _ _ hslugs _ _ _
    exact ⟨rfl, hslugs⟩
  | cons i rest ih =>
    intro store hnodup hfresh hids hslugs ht1 ht2 hc
    obtain ⟨doc, hdocid, _, hstep⟩ := createHandler_fresh_success store c title content i n
      (hfresh i (List.mem_cons_self i rest)) ht1 ht2 hc
    rw [List.map_cons, List.foldl_cons]
    have hexec : execOp store (Op.create c { title := title, content := content } i n) =
        store ++ [doc] := by
      simp [execOp, hstep]
    rw [hexec]
    have hinv := createHandler_inv store c { title := title, content := content } i n
      ⟨hids, hslugs⟩
    rw [hstep] at hinv
    have hnodup' : rest.Nodup := (List.nodup_cons.mp hnodup).2
    have hinotin : i ∉ rest := (List.nodup_cons.mp hnodup).1
    have hfresh' : ∀ j ∈ rest, ∀ q ∈ store ++ [doc], q.id ≠ j := by
      intro j hj q hq
      rw [List.mem_append] at hq
      rcases hq with hq | hq
      · exact hfresh j (List.mem_cons_of_mem i hj) q hq
      · rw [List.mem_singleton] at hq
        subst hq
        rw [hdocid]
        intro he
        subst he
        exact hinotin hj
    have := ih (store ++ [doc]) hnodup' hfresh' hinv.1 hinv.2 ht1 ht2 hc
    refine ⟨?_, this.2⟩
    rw [this.1]
    rw [List.length_append]
    simp [List.length_cons]
    omega

/-- C3: slug uniqueness is an invariant of every serial history of create
and update requests starting from the empty store — the stored slugs are
pairwise distinct after every history; moreover a back-to-back sequence of
creations with one identical (valid) title and distinct fresh ids all
succeed, and the resulting slugs are pairwise distinct. -/
theorem slug_uniqueness_invariant :
    (∀ ops : List Op, ((execOps ops).map Post.slug).Nodup) ∧
    (∀ (c : Caller) (title content : String) (n : Nat) (ids : List String),
      ids.Nodup → title ≠ "" → title.length ≤ 200 → content ≠ "" →
      (execOps (ids.map (fun i => Op.create c { title := title, content := content } i n))).length
          = ids.length ∧
      ((execOps (ids.map (fun i => Op.create c { title := title, content := content } i n))).map
          Post.slug).Nodup) := by
  constructor
  · intro ops
    exact (foldl_inv ops [] ⟨List.nodup_nil, List.nodup_nil⟩).2
  · intro c title content n ids hnodup ht1 ht2 hc
    have h := creates_same_title c title content n ids [] hnodup
      (by intro i _ q hq; cases hq) List.nodup_nil List.nodup_nil ht1 ht2 hc
    exact ⟨by simpa using h.1, h.2⟩

/-- C3 witness: two back-to-back creations with the identical title
"Hello, World!" both succeed and produce distinct slugs. -/
theorem slug_uniqueness_invariant_witness :
    (execOps ([idA, idB].map (fun i =>
        Op.create demoCaller { title := "Hello, World!", content := "greeting text" } i 0))).length
      = 2 ∧
    ((execOps ([idA, idB].map (fun i =>
        Op.create demoCaller { title := "Hello, World!", content := "greeting text" } i 0))).map
        Post.slug).Nodup :=
  slug_uniqueness_invariant.2 demoCaller "Hello, World!" "greeting text" 0 [idA, idB]
    (by decide) (by decide) (by decide) (by decide)

end Blog
